import Mathlib

/-!
Verification development for the pydice expression-evaluation core.

The repository consists of the AST nodes `Add` (module
`python_dice/src/pydice_syntax/add.py`) and `AddExpression`
(module `python_dice/src/python_dice_expression/add_expression.py`),
together with the unit tests of the constraint subsystem
(`VarValueConstraint`, `ImpossibleConstraint`), of the DICE token of the
lexical surface, and of the ADD token.  The probability-distribution
algebra, the constraint classes and the DICE token class themselves are
not part of the available sources, so they are modelled from the
specification; the DICE token regex string is pinned verbatim by its unit
test, which is part of the available sources, and is translated from that
test.
-/

open RegularExpression

/-! ## The DICE token of the lexical surface

Translated from `python_dice/test/python_dice_syntax/test_dice_syntax.py`,
which pins the token regex to the exact string
`\d*d(\d+|%|F|\[(\s*(-?)\d+\s*,\s*)*(-?)\d+\s*(,?)\s*])`.
The character classes `\d` and `\s` are expanded to explicit alternations
over their (ASCII) member characters. -/

/-- The ten characters matched by the `\d` class. -/
def digitChars : List Char := ['0', '1', '2', '3', '4', '5', '6', '7', '8', '9']

/-- The six ASCII characters matched by the `\s` class. -/
def spaceChars : List Char := [' ', '\t', '\n', '\x0b', '\x0c', '\r']

/-- A character class `[c₁c₂…]`: alternation of its member characters. -/
def charClass (cs : List Char) : RegularExpression Char :=
  cs.foldr (fun c r => char c + r) 0

/-- The class `\d`. -/
def digitClass : RegularExpression Char := charClass digitChars

/-- The class `\s`. -/
def spaceClass : RegularExpression Char := charClass spaceChars

/-- The regex operator `r+`, i.e. `r r*`. -/
def rePlus (r : RegularExpression Char) : RegularExpression Char := r * r.star

/-- The regex operator `r?`, i.e. `r | ε`. -/
def reOpt (r : RegularExpression Char) : RegularExpression Char := r + 1

/-- One repeated item of the face list: `\s*(-?)\d+\s*,\s*`. -/
def faceListItem : RegularExpression Char :=
  spaceClass.star *
    (reOpt (char '-') *
      (rePlus digitClass * (spaceClass.star * (char ',' * spaceClass.star))))

/-- The mandatory last face and closing bracket: `(-?)\d+\s*(,?)\s*]`. -/
def faceListLast : RegularExpression Char :=
  reOpt (char '-') *
    (rePlus digitClass *
      (spaceClass.star * (reOpt (char ',') * (spaceClass.star * char ']'))))

/-- The explicit face list form: `\[(\s*(-?)\d+\s*,\s*)*(-?)\d+\s*(,?)\s*]`. -/
def faceListForm : RegularExpression Char :=
  char '[' * (faceListItem.star * faceListLast)

/-- The body after the `d`: `(\d+|%|F|\[…])`. -/
def diceBody : RegularExpression Char :=
  rePlus digitClass + (char '%' + (char 'F' + faceListForm))

/-- The DICE token regex `\d*d(\d+|%|F|\[(\s*(-?)\d+\s*,\s*)*(-?)\d+\s*(,?)\s*])`,
exactly as pinned by `test_dice_get_token_regex`. -/
def diceTokenRegex : RegularExpression Char :=
  digitClass.star * (char 'd' * diceBody)

/-- Python `re.match` semantics: the pattern must match at the start of the
string but need not consume all of it.  `reMatch P s` is `true` exactly when
some initial segment of `s` is in the language of `P`, computed with
Brzozowski derivatives. -/
def reMatch : RegularExpression Char → List Char → Bool
  | P, [] => P.matchEpsilon
  | P, c :: cs => P.matchEpsilon || reMatch (P.deriv c) cs

/-! ### Soundness of the anchored matcher -/

/-- A full match is in particular an anchored match. -/
theorem reMatch_of_rmatch (s : List Char) :
    ∀ P : RegularExpression Char, P.rmatch s = true → reMatch P s = true := by
  induction s with
  | nil =>
    intro P h
    simpa [reMatch, RegularExpression.rmatch] using h
  | cons c cs ih =>
    intro P h
    rw [RegularExpression.rmatch] at h
    simp only [reMatch, Bool.or_eq_true]
    exact Or.inr (ih _ h)

/-- Membership of a single-character string in the language of a character
class. -/
theorem mem_charClass_matches (cs : List Char) (c : Char) (hc : c ∈ cs) :
    [c] ∈ (charClass cs).matches' := by
  induction cs with
  | nil => cases hc
  | cons x rest ih =>
    have hstep : charClass (x :: rest) = RegularExpression.char x + charClass rest := rfl
    rw [hstep, RegularExpression.matches'_add, Language.mem_add]
    rcases List.mem_cons.1 hc with h | h
    · left
      rw [RegularExpression.matches'_char, h]
      rfl
    · exact Or.inr (ih h)

/-- A string of digit characters is in the language of `\d*`. -/
theorem digits_mem_star_matches (N : List Char) (hN : ∀ c ∈ N, c ∈ digitChars) :
    N ∈ digitClass.star.matches' := by
  rw [RegularExpression.matches'_star]
  have hjoin : (N.map fun c => [c]).flatten = N := by
    induction N with
    | nil => rfl
    | cons c cs ih =>
      simp only [List.map_cons, List.flatten_cons, List.singleton_append, List.cons_inj_right]
      exact ih fun x hx => hN x (List.mem_cons_of_mem _ hx)
  rw [← hjoin]
  apply Language.join_mem_kstar
  intro y hy
  obtain ⟨c, hc, rfl⟩ := List.mem_map.1 hy
  exact mem_charClass_matches digitChars c (hN c hc)

/-- A nonempty string of digit characters is in the language of `\d+`. -/
theorem digits_mem_plus_matches (M : List Char) (hM : ∀ c ∈ M, c ∈ digitChars)
    (hne : M ≠ []) : M ∈ (rePlus digitClass).matches' := by
  match M, hne with
  | c :: rest, _ =>
    have h1 : [c] ∈ digitClass.matches' :=
      mem_charClass_matches digitChars c (hM c (List.mem_cons_self c rest))
    have h2 : rest ∈ digitClass.star.matches' :=
      digits_mem_star_matches rest fun x hx => hM x (List.mem_cons_of_mem _ hx)
    have : [c] ++ rest ∈ (rePlus digitClass).matches' := by
      rw [rePlus, RegularExpression.matches'_mul]
      exact Language.append_mem_mul h1 h2
    simpa using this

/-! ## ProbabilityDistribution

Modelled from the spec: a `ProbabilityDistribution` is a mapping from
integer outcomes to non-negative integer weights (relative frequencies).
It is represented as a multiset of outcomes: the weight of an outcome is
its multiplicity, which makes the representation exactly a finitely
supported map into the non-negative integers, with structural equality of
the weight mapping. -/
abbrev ProbabilityDistribution := Multiset Int

namespace ProbabilityDistribution

/-- Modelled from the spec: the weight of an outcome in a distribution. -/
def weight (d : ProbabilityDistribution) (o : Int) : Nat := Multiset.count o d

/-- Modelled from the spec: the total weight of a distribution (the size of
the sample space). -/
def totalWeight (d : ProbabilityDistribution) : Nat := Multiset.card d

/-- Modelled from the spec: `add` combines two distributions via discrete
convolution — the resulting weight of outcome `o` is the sum over all pairs
`(a, b)` with `a + b = o` of `weight a * weight b`.  (See
`ProbabilityDistribution.weight_add` below for that formula.) -/
def add (d e : ProbabilityDistribution) : ProbabilityDistribution :=
  Multiset.bind d fun a => Multiset.map (fun b => a + b) e

/-- Modelled from the spec: `min` is the smallest outcome with nonzero
weight; the undefined case (`⊤`) is the empty distribution, on which the
source would raise. -/
def min (d : ProbabilityDistribution) : WithTop Int := d.toFinset.min

/-- Modelled from the spec: `max` is the largest outcome with nonzero
weight; the undefined case (`⊥`) is the empty distribution, on which the
source would raise. -/
def max (d : ProbabilityDistribution) : WithBot Int := d.toFinset.max

end ProbabilityDistribution

namespace ProbabilityDistribution

/-- An outcome occurs in the sum distribution exactly when it splits as a
sum of an outcome of each operand. -/
theorem mem_add (d e : ProbabilityDistribution) (o : Int) :
    o ∈ ProbabilityDistribution.add d e ↔ ∃ a ∈ d, ∃ b ∈ e, a + b = o := by
  simp [ProbabilityDistribution.add, Multiset.mem_bind, Multiset.mem_map]

/-- The representation satisfies the convolution formula of the spec: the
weight of `o` in the sum distribution is the sum over outcomes `a` of the
first operand of `weight a * weight (o - a)`. -/
theorem weight_add (d e : ProbabilityDistribution) (o : Int) :
    weight (ProbabilityDistribution.add d e) o
      = ∑ a ∈ d.toFinset, weight d a * weight e (o - a) := by
  have hpt : ∀ a : Int,
      Multiset.count o (Multiset.map (fun b => a + b) e) = Multiset.count (o - a) e := by
    intro a
    calc Multiset.count o (Multiset.map (fun b => a + b) e)
        = Multiset.count (a + (o - a)) (Multiset.map (fun b => a + b) e) := by
          rw [show a + (o - a) = o by omega]
      _ = Multiset.count (o - a) e :=
          Multiset.count_map_eq_count' _ _ (add_right_injective a) _
  rw [weight, ProbabilityDistribution.add, Multiset.count_bind,
    Multiset.map_congr rfl fun a _ => hpt a, Finset.sum_multiset_map_count]
  simp [weight, smul_eq_mul]

/-- The smallest outcome of the sum distribution is the sum of the smallest
outcomes of the operands, provided neither operand is empty. -/
theorem min_add (d e : ProbabilityDistribution) (hd : d ≠ 0) (he : e ≠ 0) :
    ProbabilityDistribution.min (ProbabilityDistribution.add d e)
      = ProbabilityDistribution.min d + ProbabilityDistribution.min e := by
  have hd' : d.toFinset.Nonempty := Multiset.toFinset_nonempty.2 hd
  have he' : e.toFinset.Nonempty := Multiset.toFinset_nonempty.2 he
  have hmem : (d.toFinset.min' hd' + e.toFinset.min' he') ∈ ProbabilityDistribution.add d e :=
    (mem_add d e _).2
      ⟨_, Multiset.mem_toFinset.1 (Finset.min'_mem _ hd'),
        _, Multiset.mem_toFinset.1 (Finset.min'_mem _ he'), rfl⟩
  have hde : (ProbabilityDistribution.add d e).toFinset.Nonempty :=
    ⟨_, Multiset.mem_toFinset.2 hmem⟩
  have key : (ProbabilityDistribution.add d e).toFinset.min' hde
      = d.toFinset.min' hd' + e.toFinset.min' he' := by
    apply le_antisymm
    · exact Finset.min'_le _ _ (Multiset.mem_toFinset.2 hmem)
    · apply Finset.le_min'
      intro y hy
      obtain ⟨a, ha, b, hb, rfl⟩ := (mem_add d e y).1 (Multiset.mem_toFinset.1 hy)
      exact add_le_add (Finset.min'_le _ _ (Multiset.mem_toFinset.2 ha))
        (Finset.min'_le _ _ (Multiset.mem_toFinset.2 hb))
  rw [ProbabilityDistribution.min, ProbabilityDistribution.min, ProbabilityDistribution.min,
    ← Finset.coe_min' hde, ← Finset.coe_min' hd', ← Finset.coe_min' he', key]
  exact_mod_cast rfl

/-- The largest outcome of the sum distribution is the sum of the largest
outcomes of the operands, provided neither operand is empty. -/
theorem max_add (d e : ProbabilityDistribution) (hd : d ≠ 0) (he : e ≠ 0) :
    ProbabilityDistribution.max (ProbabilityDistribution.add d e)
      = ProbabilityDistribution.max d + ProbabilityDistribution.max e := by
  have hd' : d.toFinset.Nonempty := Multiset.toFinset_nonempty.2 hd
  have he' : e.toFinset.Nonempty := Multiset.toFinset_nonempty.2 he
  have hmem : (d.toFinset.max' hd' + e.toFinset.max' he') ∈ ProbabilityDistribution.add d e :=
    (mem_add d e _).2
      ⟨_, Multiset.mem_toFinset.1 (Finset.max'_mem _ hd'),
        _, Multiset.mem_toFinset.1 (Finset.max'_mem _ he'), rfl⟩
  have hde : (ProbabilityDistribution.add d e).toFinset.Nonempty :=
    ⟨_, Multiset.mem_toFinset.2 hmem⟩
  have key : (ProbabilityDistribution.add d e).toFinset.max' hde
      = d.toFinset.max' hd' + e.toFinset.max' he' := by
    apply le_antisymm
    · apply Finset.max'_le
      intro y hy
      obtain ⟨a, ha, b, hb, rfl⟩ := (mem_add d e y).1 (Multiset.mem_toFinset.1 hy)
      exact add_le_add (Finset.le_max' _ _ (Multiset.mem_toFinset.2 ha))
        (Finset.le_max' _ _ (Multiset.mem_toFinset.2 hb))
    · exact Finset.le_max' _ _ (Multiset.mem_toFinset.2 hmem)
  rw [ProbabilityDistribution.max, ProbabilityDistribution.max, ProbabilityDistribution.max,
    ← Finset.coe_max' hde, ← Finset.coe_max' hd', ← Finset.coe_max' he', key]
  exact_mod_cast rfl

/-- Mass conservation: the total weight of the sum distribution is the
product of the total weights of the operands. -/
theorem totalWeight_add (d e : ProbabilityDistribution) :
    totalWeight (ProbabilityDistribution.add d e) = totalWeight d * totalWeight e := by
  simp [totalWeight, ProbabilityDistribution.add, Multiset.card_bind, Function.comp_def,
    Multiset.map_const', smul_eq_mul, mul_comm]

end ProbabilityDistribution

/-! ## Expression AST nodes

The two AST node classes present in the sources, `Add` in
`python_dice/src/pydice_syntax/add.py` and `AddExpression` in
`python_dice/src/python_dice_expression/add_expression.py`.  They are kept
inside the namespace `Pydice` because `Add` is taken by the ambient
library.  The interface `IDiceSyntax` of module `i_dice_statement.py` is
named `IDiceStatement` after its module. -/

namespace Pydice

/-- The abstract child interface of the `Add` node (`i_dice_statement.py`),
restricted to the bound-computation surface that `Add.min`/`Add.max` use: a
child is observed through its `min` and `max` bounds. -/
structure IDiceStatement where
  min : Int
  max : Int

/-- The `Add` AST node of `pydice_syntax/add.py`: it holds its two child
statements `_expression_one` and `_expression_two`. -/
structure Add where
  expression_one : IDiceStatement
  expression_two : IDiceStatement

/-- Source `Add.max`: the sum of the `max` values of the two children,
computed directly without building a distribution. -/
def Add.max (a : Add) : Int :=
  a.expression_one.max + a.expression_two.max

/-- Source `Add.min`: the sum of the `min` values of the two children,
computed directly without building a distribution. -/
def Add.min (a : Add) : Int :=
  a.expression_one.min + a.expression_two.min

/-- The abstract child interface of the `AddExpression` node
(`i_dice_expression.py`): an already-evaluated child expression is observed
through its probability distribution, and its interface-level `min`/`max`
bounds are those of that distribution. -/
structure IDiceExpression where
  get_probability_distribution : ProbabilityDistribution

/-- The interface-level `min` bound of an expression: the smallest outcome
of its distribution. -/
def IDiceExpression.min (e : IDiceExpression) : WithTop Int :=
  ProbabilityDistribution.min e.get_probability_distribution

/-- The interface-level `max` bound of an expression: the largest outcome
of its distribution. -/
def IDiceExpression.max (e : IDiceExpression) : WithBot Int :=
  ProbabilityDistribution.max e.get_probability_distribution

/-- The `AddExpression` AST node of
`python_dice_expression/add_expression.py`: it holds its two child
expressions `_expression_one` and `_expression_two`. -/
structure AddExpression where
  expression_one : IDiceExpression
  expression_two : IDiceExpression

/-- Source `AddExpression.get_probability_distribution`: the sum
(convolution) of the two child distributions. -/
def AddExpression.get_probability_distribution (a : AddExpression) : ProbabilityDistribution :=
  ProbabilityDistribution.add a.expression_one.get_probability_distribution
    a.expression_two.get_probability_distribution

/-- Source `AddExpression.max`: derived from the full probability
distribution of the sum, `self.get_probability_distribution().max()`. -/
def AddExpression.max (a : AddExpression) : WithBot Int :=
  ProbabilityDistribution.max (AddExpression.get_probability_distribution a)

/-- Source `AddExpression.min`: derived from the full probability
distribution of the sum, `self.get_probability_distribution().min()`. -/
def AddExpression.min (a : AddExpression) : WithTop Int :=
  ProbabilityDistribution.min (AddExpression.get_probability_distribution a)

/-! ## Constraint subsystem

Modelled from the spec: the closed set of constraint variants is
`VarValueConstraint(name, values)` and `ImpossibleConstraint`, represented
as a tagged-variant type.  A variable-value mapping (`var_values`) is an
association list from names to bound values.  The source raises
`ValueError` on an invalid merge; this is modelled by `merge` returning
`Except String Constraint`. -/

/-- Modelled from the spec: the two constraint variants. -/
inductive Constraint where
  | varValue (name : String) (values : Finset Int)
  | impossible
deriving DecidableEq

/-- Modelled from the spec: the factory accessor `var_value_constraint`,
the sole source of fresh `VarValueConstraint` instances. -/
def ConstraintFactory.var_value_constraint (name : String) (values : Finset Int) : Constraint :=
  Constraint.varValue name values

/-- Modelled from the spec: the factory accessor `impossible_constraint`,
the shared impossible sentinel. -/
def ConstraintFactory.impossible_constraint : Constraint :=
  Constraint.impossible

namespace Constraint

/-- Modelled from the spec: `complies(var_values)` is true for a
`VarValueConstraint` when its name is absent from the mapping or the bound
value is a member of its value set, and is always true for
`ImpossibleConstraint`. -/
def complies : Constraint → List (String × Int) → Bool
  | varValue nm values, var_values =>
    match List.lookup nm var_values with
    | none => true
    | some v => decide (v ∈ values)
  | impossible, _ => true

/-- Modelled from the spec: `is_possible()` reflects whether the value set
of a `VarValueConstraint` is non-empty, and is always false for
`ImpossibleConstraint`. -/
def is_possible : Constraint → Bool
  | varValue _ values => decide values.Nonempty
  | impossible => false

/-- Modelled from the spec: `can_merge(other)` is true for a
`VarValueConstraint` only when `other` is also a `VarValueConstraint` on
the same name, and is always true for `ImpossibleConstraint`. -/
def can_merge : Constraint → Constraint → Bool
  | varValue nm _, varValue nm2 _ => decide (nm = nm2)
  | varValue _ _, impossible => false
  | impossible, _ => true

/-- Modelled from the spec: `merge(other)`.  A `VarValueConstraint` first
checks `can_merge` and raises a `ValueError` when it is false (the
`Except.error` branches); when the merge is valid it intersects the two
value sets through the factory, returning a fresh `VarValueConstraint` on a
non-empty intersection and the impossible sentinel on an empty one.
`ImpossibleConstraint.merge` returns the constraint itself. -/
def merge : Constraint → Constraint → Except String Constraint
  | varValue nm values, varValue nm2 values2 =>
    if nm = nm2 then
      if (values ∩ values2).Nonempty then
        Except.ok (ConstraintFactory.var_value_constraint nm (values ∩ values2))
      else
        Except.ok ConstraintFactory.impossible_constraint
    else
      Except.error "can not merge"
  | varValue _ _, impossible => Except.error "can not merge"
  | impossible, _ => Except.ok impossible

end Constraint

end Pydice

/-! ## Claims -/

/-- C1: for every `Add` node whose two child expressions have well-defined
bounds, `min()` is the sum of the child `min()` values and `max()` the sum
of the child `max()` values — both for `Add`, which computes the bounds
directly from the children, and for `AddExpression`, which derives them
from the full probability distribution of the sum.  Well-defined bounds
means the child distributions are non-empty. -/
theorem add_bounds_from_children (a : Pydice.Add) (e : Pydice.AddExpression)
    (h1 : e.expression_one.get_probability_distribution ≠ 0)
    (h2 : e.expression_two.get_probability_distribution ≠ 0) :
    (Pydice.Add.min a = a.expression_one.min + a.expression_two.min ∧
      Pydice.Add.max a = a.expression_one.max + a.expression_two.max) ∧
    (Pydice.AddExpression.min e
        = Pydice.IDiceExpression.min e.expression_one
            + Pydice.IDiceExpression.min e.expression_two ∧
      Pydice.AddExpression.max e
        = Pydice.IDiceExpression.max e.expression_one
            + Pydice.IDiceExpression.max e.expression_two) := by
  refine ⟨⟨rfl, rfl⟩, ?_, ?_⟩
  · exact ProbabilityDistribution.min_add _ _ h1 h2
  · exact ProbabilityDistribution.max_add _ _ h1 h2

/-- Witness for C1 at the children with distributions `{1, 2}` and `{5}`
and at the statement node with bounds `(1, 2)` and `(3, 4)`. -/
theorem add_bounds_from_children_witness :
    ((⟨⟨{1, 2}⟩, ⟨{5}⟩⟩ : Pydice.AddExpression).expression_one.get_probability_distribution
        ≠ 0) ∧
    ((⟨⟨{1, 2}⟩, ⟨{5}⟩⟩ : Pydice.AddExpression).expression_two.get_probability_distribution
        ≠ 0) ∧
    ((Pydice.Add.min ⟨⟨1, 2⟩, ⟨3, 4⟩⟩
        = (⟨1, 2⟩ : Pydice.IDiceStatement).min + (⟨3, 4⟩ : Pydice.IDiceStatement).min ∧
      Pydice.Add.max ⟨⟨1, 2⟩, ⟨3, 4⟩⟩
        = (⟨1, 2⟩ : Pydice.IDiceStatement).max + (⟨3, 4⟩ : Pydice.IDiceStatement).max) ∧
    (Pydice.AddExpression.min ⟨⟨{1, 2}⟩, ⟨{5}⟩⟩
        = Pydice.IDiceExpression.min ⟨{1, 2}⟩ + Pydice.IDiceExpression.min ⟨{5}⟩ ∧
      Pydice.AddExpression.max ⟨⟨{1, 2}⟩, ⟨{5}⟩⟩
        = Pydice.IDiceExpression.max ⟨{1, 2}⟩ + Pydice.IDiceExpression.max ⟨{5}⟩)) :=
  ⟨by decide, by decide,
    add_bounds_from_children ⟨⟨1, 2⟩, ⟨3, 4⟩⟩ ⟨⟨{1, 2}⟩, ⟨{5}⟩⟩ (by decide) (by decide)⟩

/-- C2: for every variable-value mapping, the impossible sentinel complies,
while `is_possible()` is false. -/
theorem impossible_complies_not_possible :
    ∀ var_values : List (String × Int),
      Pydice.Constraint.complies Pydice.Constraint.impossible var_values = true ∧
      Pydice.Constraint.is_possible Pydice.Constraint.impossible = false :=
  fun _ => ⟨rfl, rfl⟩

/-- C3: merging two `VarValueConstraint`s on the same name intersects the
value sets through the factory: a non-empty intersection yields the fresh
`VarValueConstraint` of the factory on exactly the intersection, an empty
one yields the impossible-constraint singleton of the factory. -/
theorem var_value_merge_intersection (nm : String) (S1 S2 : Finset Int) :
    ((S1 ∩ S2).Nonempty →
      Pydice.Constraint.merge (Pydice.Constraint.varValue nm S1)
          (Pydice.Constraint.varValue nm S2)
        = Except.ok (Pydice.ConstraintFactory.var_value_constraint nm (S1 ∩ S2))) ∧
    (S1 ∩ S2 = ∅ →
      Pydice.Constraint.merge (Pydice.Constraint.varValue nm S1)
          (Pydice.Constraint.varValue nm S2)
        = Except.ok Pydice.ConstraintFactory.impossible_constraint) := by
  constructor
  · intro h
    simp [Pydice.Constraint.merge, h]
  · intro h
    simp [Pydice.Constraint.merge, h]

/-- Witness for C3: an overlapping merge at `{1, 2} ∩ {2, 3}` and a
disjoint merge at `{1} ∩ {2}`. -/
theorem var_value_merge_intersection_witness :
    Pydice.Constraint.merge (Pydice.Constraint.varValue "x" {1, 2})
        (Pydice.Constraint.varValue "x" {2, 3})
      = Except.ok (Pydice.ConstraintFactory.var_value_constraint "x" ({1, 2} ∩ {2, 3})) ∧
    Pydice.Constraint.merge (Pydice.Constraint.varValue "x" {1})
        (Pydice.Constraint.varValue "x" {2})
      = Except.ok Pydice.ConstraintFactory.impossible_constraint :=
  ⟨(var_value_merge_intersection "x" {1, 2} {2, 3}).1 (by decide),
    (var_value_merge_intersection "x" {1} {2}).2 (by decide)⟩

/-- C4: calling `merge` on a `VarValueConstraint` against any constraint it
cannot merge with fails with the domain error (`ValueError`, modelled as
`Except.error`) and never returns a best-effort result. -/
theorem var_value_merge_invalid_raises (nm : String) (values : Finset Int)
    (other : Pydice.Constraint)
    (h : Pydice.Constraint.can_merge (Pydice.Constraint.varValue nm values) other = false) :
    ∃ msg, Pydice.Constraint.merge (Pydice.Constraint.varValue nm values) other
      = Except.error msg := by
  cases other with
  | varValue nm2 values2 =>
    have hne : nm ≠ nm2 := by simpa [Pydice.Constraint.can_merge] using h
    exact ⟨"can not merge", by simp [Pydice.Constraint.merge, hne]⟩
  | impossible => exact ⟨"can not merge", rfl⟩

/-- Witness for C4 at the unmergeable pair of a `VarValueConstraint` and
the impossible sentinel. -/
theorem var_value_merge_invalid_raises_witness :
    Pydice.Constraint.can_merge (Pydice.Constraint.varValue "x" {1, 2, 3})
        Pydice.Constraint.impossible = false ∧
    ∃ msg, Pydice.Constraint.merge (Pydice.Constraint.varValue "x" {1, 2, 3})
        Pydice.Constraint.impossible = Except.error msg :=
  ⟨rfl, var_value_merge_invalid_raises "x" {1, 2, 3} Pydice.Constraint.impossible rfl⟩

/-- C5: a `VarValueConstraint` complies with a variable-value mapping
exactly when its name is absent from the mapping or the bound value is in
its value set. -/
theorem var_value_complies_iff (nm : String) (values : Finset Int)
    (var_values : List (String × Int)) :
    Pydice.Constraint.complies (Pydice.Constraint.varValue nm values) var_values = true ↔
      (List.lookup nm var_values = none ∨
        ∃ v, List.lookup nm var_values = some v ∧ v ∈ values) := by
  cases h : List.lookup nm var_values with
  | none => simp [Pydice.Constraint.complies, h]
  | some v => simp [Pydice.Constraint.complies, h]

/-- C6: mass conservation — the total weight of the sum distribution (the
distribution `AddExpression` builds by discrete convolution) equals the
product of the total weights of the operands. -/
theorem add_total_weight_product :
    (∀ d e : ProbabilityDistribution,
      ProbabilityDistribution.totalWeight (ProbabilityDistribution.add d e)
        = ProbabilityDistribution.totalWeight d * ProbabilityDistribution.totalWeight e) ∧
    (∀ a : Pydice.AddExpression,
      ProbabilityDistribution.totalWeight (Pydice.AddExpression.get_probability_distribution a)
        = ProbabilityDistribution.totalWeight a.expression_one.get_probability_distribution
            * ProbabilityDistribution.totalWeight a.expression_two.get_probability_distribution) :=
  ⟨ProbabilityDistribution.totalWeight_add,
    fun _ => ProbabilityDistribution.totalWeight_add _ _⟩

/-- C7: the impossible sentinel can merge with any constraint and merging
returns the sentinel itself — it is an absorbing element of `merge`. -/
theorem impossible_merge_absorbing (other : Pydice.Constraint) :
    Pydice.Constraint.can_merge Pydice.Constraint.impossible other = true ∧
    Pydice.Constraint.merge Pydice.Constraint.impossible other
      = Except.ok Pydice.Constraint.impossible :=
  ⟨rfl, rfl⟩

/-- C8 counterexample: `100d0`, whose `M` part is `0` and hence not a
positive integer, is nevertheless matched by the DICE token regex — the
test `test_dice_regex_will_match` itself lists `100d0` as matching. -/
theorem dice_token_matches_zero_sides :
    reMatch diceTokenRegex (String.toList "100d0") = true := by decide

/-- C8 amended: the DICE token matches the standard form `NdM` whenever `M`
is a non-empty digit string — any non-negative integer, zero included —
with `N` an optional digit string; positivity of `M` is not required. -/
theorem dice_token_standard_form_digits (N M : List Char)
    (hN : ∀ c ∈ N, c ∈ digitChars) (hM : ∀ c ∈ M, c ∈ digitChars) (hne : M ≠ []) :
    reMatch diceTokenRegex (N ++ 'd' :: M) = true := by
  apply reMatch_of_rmatch
  have hN' : N ∈ digitClass.star.matches' := digits_mem_star_matches N hN
  have hd : ['d'] ∈ (RegularExpression.char 'd').matches' := by
    rw [RegularExpression.matches'_char]
    rfl
  have hM' : M ∈ diceBody.matches' := by
    rw [diceBody, RegularExpression.matches'_add, Language.mem_add]
    exact Or.inl (digits_mem_plus_matches M hM hne)
  have hmem : N ++ (['d'] ++ M) ∈ diceTokenRegex.matches' := by
    rw [diceTokenRegex, RegularExpression.matches'_mul]
    apply Language.append_mem_mul hN'
    rw [RegularExpression.matches'_mul]
    exact Language.append_mem_mul hd hM'
  exact (RegularExpression.rmatch_iff_matches' _ _).2 (by simpa using hmem)

/-- Witness for the amended C8 at `N = 10`, `M = 0`, i.e. the token
`10d0`. -/
theorem dice_token_standard_form_digits_witness :
    (∀ c ∈ ['1', '0'], c ∈ digitChars) ∧ (∀ c ∈ ['0'], c ∈ digitChars) ∧
      ['0'] ≠ ([] : List Char) ∧
      reMatch diceTokenRegex (['1', '0'] ++ 'd' :: ['0']) = true :=
  ⟨by decide, by decide, by decide,
    dice_token_standard_form_digits ['1', '0'] ['0'] (by decide) (by decide) (by decide)⟩

/-- C9: the explicit-face-list form of the DICE token requires at least one
face and permits a trailing comma, interior whitespace, negative integers
and duplicate values; a zero-face list such as `5d[]` and a doubled comma
such as `d[1,,2]` are rejected at the lexical surface. -/
theorem dice_token_face_list_lexical :
    reMatch diceTokenRegex (String.toList "d[1]") = true ∧
    reMatch diceTokenRegex (String.toList "5d[1,]") = true ∧
    reMatch diceTokenRegex (String.toList "d[ 1,2,3,4]") = true ∧
    reMatch diceTokenRegex (String.toList "d[-1]") = true ∧
    reMatch diceTokenRegex (String.toList "d[-1 , 22, 1, 1]") = true ∧
    reMatch diceTokenRegex (String.toList "5d[]") = false ∧
    reMatch diceTokenRegex (String.toList "d[1,,2]") = false := by
  refine ⟨?_, ?_, ?_, ?_, ?_, ?_, ?_⟩ <;> decide

/-- C10: `can_merge` is not symmetric across variants — the impossible
sentinel can merge with a `VarValueConstraint`, while a
`VarValueConstraint` cannot merge with the sentinel, because it only
merges with a `VarValueConstraint` on the same name. -/
theorem can_merge_asymmetric (nm : String) (values : Finset Int) :
    Pydice.Constraint.can_merge Pydice.Constraint.impossible
        (Pydice.Constraint.varValue nm values) = true ∧
    Pydice.Constraint.can_merge (Pydice.Constraint.varValue nm values)
        Pydice.Constraint.impossible = false :=
  ⟨rfl, rfl⟩
